import Mathlib

/-!
Verification model of the aggregation core of the OperAID-Dev-Challenge
repository (file src/backend/app/aggregation.py, with the broadcast wire
format from src/backend/app/server.py).

Modelling conventions:
* Python values reaching the aggregator are modelled by the inductive
  type PyVal (None, bool, int, float, str, datetime).  Python doubles are
  modelled by exact rationals; sums, means and rounding are stated over
  this exact arithmetic.
* A datetime is modelled by its wall-clock reading expressed in
  microseconds since the Unix epoch together with an optional UTC offset
  in seconds (none = a naive datetime).  The instant a datetime denotes
  is wall minus offset; datetime.now(timezone.utc) is passed in as an
  explicit integer parameter, so both methods are pure functions of the
  state, the payload and the clock.
* Aggregator.add mutates self.rows only in its final statement, so a
  raising call leaves the buffer untouched; add is therefore embedded as
  a function returning the (optional) raised error together with the
  resulting rows list.
* Aggregator.aggregate builds a Polars frame from the buffered rows,
  filters it by the window cutoff, writes the recent partition back,
  groups by (maschinenId, scrapIndex), aggregates sum / mean / count and
  sorts by the two key columns.  The frame pipeline is embedded directly
  on the rows list: filtering is List.filter, grouping collects the rows
  sharing a key, the Polars mean kernel is sum divided by count, and the
  final sort is an insertion sort by the key columns.  The strict frame
  construction raises on buffers whose key columns mix dtypes (add
  stores those fields verbatim, so such buffers are reachable); that
  raising path is modelled by the schema check dfSchemaOk and the
  wrapper aggregateRun, while aggregate itself is the success-path
  pipeline.
-/

/-- A Python value as it can appear in a decoded MQTT payload or in the
aggregator's buffer: None, a bool, an int, a float (exact rational), a
str, or a datetime given by its wall-clock microseconds since epoch and
an optional UTC offset in seconds (none = naive). -/
inductive PyVal where
  | none : PyVal
  | bool (b : Bool) : PyVal
  | int (n : ℤ) : PyVal
  | float (q : ℚ) : PyVal
  | str (s : String) : PyVal
  | dt (wall : ℤ) (off : Option ℤ) : PyVal
deriving DecidableEq

/-- Python truthiness of a payload value: None, False, 0, 0.0 and the
empty string are falsy, datetimes are always truthy. -/
def truthy : PyVal → Bool
  | PyVal.none => false
  | PyVal.bool b => b
  | PyVal.int n => decide (n ≠ 0)
  | PyVal.float q => decide (q ≠ 0)
  | PyVal.str s => decide (s ≠ "")
  | PyVal.dt _ _ => true

/-- The Python expression a or b: a when a is truthy, otherwise b. -/
def pyOr (a b : PyVal) : PyVal := if truthy a then a else b

/-- A decoded message payload: a key/value mapping. -/
def Payload : Type := List (String × PyVal)

/-- Python dict.get with default None. -/
def Payload.get (p : Payload) (k : String) : PyVal :=
  match p.find? (fun kv => decide (kv.1 = k)) with
  | Option.none => PyVal.none
  | Option.some kv => kv.2

/-- Numeric value of a decimal digit character. -/
def digitVal (c : Char) : ℕ := c.toNat - 48

/-- Read exactly k decimal digits from the front of a character list,
returning their value and the rest of the input. -/
def readFixed : ℕ → List Char → Option (ℕ × List Char)
  | 0, cs => Option.some (0, cs)
  | k + 1, [] => (fun _ => Option.none) k
  | k + 1, c :: cs =>
    if c.isDigit then
      (readFixed k cs).map (fun r => (digitVal c * 10 ^ (k + 1 - 1) + r.1, r.2))
    else Option.none

/-- Expect a given character at the front of the input. -/
def expectChar (c : Char) : List Char → Option (List Char)
  | [] => Option.none
  | d :: cs => if d = c then Option.some cs else Option.none

/-- Read a run of decimal digits, returning value, digit count and rest. -/
def readRun (cs : List Char) : ℕ × ℕ × List Char :=
  let ds := cs.takeWhile Char.isDigit
  (ds.foldl (fun n c => 10 * n + digitVal c) 0, ds.length, cs.dropWhile Char.isDigit)

/-- Fractional seconds: one to six digits, scaled to microseconds. -/
def readFrac (cs : List Char) : Option (ℕ × List Char) :=
  let r := readRun cs
  if r.2.1 = 0 ∨ 6 < r.2.1 then Option.none
  else Option.some (r.1 * 10 ^ (6 - r.2.1), r.2.2)

/-- Gregorian leap-year test. -/
def isLeap (y : ℕ) : Bool := y % 4 = 0 && (y % 100 ≠ 0 || y % 400 = 0)

/-- Number of days in a month of a given year. -/
def daysInMonth (y mo : ℕ) : ℕ :=
  if mo = 2 then (if isLeap y then 29 else 28)
  else if mo = 4 ∨ mo = 6 ∨ mo = 9 ∨ mo = 11 then 30
  else 31

/-- Days from 1970-01-01 to a civil date (standard civil-from-days
inverse, Gregorian calendar, valid for years 1..9999). -/
def daysFromCivil (y mo d : ℕ) : ℤ :=
  let yr : ℤ := if mo ≤ 2 then (y : ℤ) - 1 else (y : ℤ)
  let era : ℤ := Int.fdiv yr 400
  let yoe : ℤ := yr - era * 400
  let mp : ℤ := if mo ≤ 2 then (mo : ℤ) + 9 else (mo : ℤ) - 3
  let doy : ℤ := Int.fdiv (153 * mp + 2) 5 + (d : ℤ) - 1
  let doe : ℤ := yoe * 365 + Int.fdiv yoe 4 - Int.fdiv yoe 100 + doy
  era * 146097 + doe - 719468

/-- Optional seconds (and fractional seconds) part of an ISO time,
defaulting to zero when absent. -/
def readSec : List Char → Option (ℕ × ℕ × List Char)
  | ':' :: cs =>
    match readFixed 2 cs with
    | Option.none => Option.none
    | Option.some (s, cs) =>
      match cs with
      | '.' :: cs2 =>
        match readFrac cs2 with
        | Option.none => Option.none
        | Option.some (us, cs3) => Option.some (s, us, cs3)
      | cs2 => Option.some (s, 0, cs2)
  | cs => Option.some (0, 0, cs)

/-- A UTC offset written as HH:MM after a sign, in seconds. -/
def readOffHM (cs : List Char) : Option (ℤ × List Char) :=
  match readFixed 2 cs with
  | Option.none => Option.none
  | Option.some (oh, cs) =>
    match expectChar ':' cs with
    | Option.none => Option.none
    | Option.some cs =>
      match readFixed 2 cs with
      | Option.none => Option.none
      | Option.some (om, cs) =>
        if oh ≤ 23 ∧ om ≤ 59 then Option.some (((oh * 3600 + om * 60 : ℕ) : ℤ), cs)
        else Option.none

/-- Optional trailing UTC offset of an ISO timestamp string. -/
def readOff : List Char → Option (Option ℤ × List Char)
  | [] => Option.some (Option.none, [])
  | '+' :: cs => (readOffHM cs).map (fun r => (Option.some r.1, r.2))
  | '-' :: cs => (readOffHM cs).map (fun r => (Option.some (-r.1), r.2))
  | cs => Option.some (Option.none, cs)

/-- Model of datetime.fromisoformat on the format documented for this
system, YYYY-MM-DD[{T or space}HH:MM[:SS[.ffffff]][+HH:MM or -HH:MM]]:
returns the wall-clock microseconds since epoch and the optional UTC
offset in seconds, or fails. -/
def fromiso (s : String) : Option (ℤ × Option ℤ) :=
  match readFixed 4 s.toList with
  | Option.none => Option.none
  | Option.some (y, cs) =>
  match expectChar '-' cs with
  | Option.none => Option.none
  | Option.some cs =>
  match readFixed 2 cs with
  | Option.none => Option.none
  | Option.some (mo, cs) =>
  match expectChar '-' cs with
  | Option.none => Option.none
  | Option.some cs =>
  match readFixed 2 cs with
  | Option.none => Option.none
  | Option.some (d, cs) =>
  if ¬ (1 ≤ y ∧ y ≤ 9999 ∧ 1 ≤ mo ∧ mo ≤ 12 ∧ 1 ≤ d ∧ d ≤ daysInMonth y mo) then
    Option.none
  else
    let dateUs : ℤ := daysFromCivil y mo d * 86400000000
    match cs with
    | [] => Option.some (dateUs, Option.none)
    | sep :: cs =>
      if ¬ (sep = 'T' ∨ sep = ' ') then Option.none
      else
      match readFixed 2 cs with
      | Option.none => Option.none
      | Option.some (h, cs) =>
      match expectChar ':' cs with
      | Option.none => Option.none
      | Option.some cs =>
      match readFixed 2 cs with
      | Option.none => Option.none
      | Option.some (mi, cs) =>
      match readSec cs with
      | Option.none => Option.none
      | Option.some (sec, us, cs) =>
      match readOff cs with
      | Option.none => Option.none
      | Option.some (off, cs) =>
        if cs = [] ∧ h ≤ 23 ∧ mi ≤ 59 ∧ sec ≤ 59 then
          Option.some
            (dateUs + ((h * 3600000000 + mi * 60000000 + sec * 1000000 + us : ℕ) : ℤ), off)
        else Option.none

/-- Model of Python float(s) on strings: optional sign, decimal digits
with optional fraction, optional exponent. -/
def strToFloat? (s : String) : Option ℚ :=
  let cs := s.toList
  let sg : ℚ × List Char :=
    match cs with
    | '+' :: t => (1, t)
    | '-' :: t => (-1, t)
    | t => (1, t)
  let ip := readRun sg.2
  let fr : ℕ × ℕ × List Char :=
    match ip.2.2 with
    | '.' :: t => readRun t
    | t => (0, 0, t)
  if ip.2.1 = 0 ∧ fr.2.1 = 0 then Option.none
  else
    let mant : ℚ := sg.1 * ((ip.1 : ℚ) + (fr.1 : ℚ) / 10 ^ fr.2.1)
    match fr.2.2 with
    | [] => Option.some mant
    | c :: t =>
      if c = 'e' ∨ c = 'E' then
        let es : ℤ × List Char :=
          match t with
          | '+' :: t2 => (1, t2)
          | '-' :: t2 => (-1, t2)
          | t2 => (1, t2)
        let ev := readRun es.2
        if ev.2.1 = 0 ∨ ev.2.2 ≠ [] then Option.none
        else Option.some (mant * (10 : ℚ) ^ (es.1 * (ev.1 : ℕ)))
      else Option.none

/-- Model of Python float(v): ints, floats and bools convert, strings
convert through strToFloat?, None and datetimes raise TypeError. -/
def toFloat? : PyVal → Option ℚ
  | PyVal.int n => Option.some (n : ℚ)
  | PyVal.float q => Option.some q
  | PyVal.bool b => Option.some (if b then 1 else 0)
  | PyVal.str s => strToFloat? s
  | _ => Option.none

/-- One buffered reading, exactly the dict appended by Aggregator.add:
the resolved machine id and scrap index (stored as supplied), the value
coerced to float, and the normalized timestamp as an absolute instant in
microseconds since epoch. -/
structure PyRow where
  maschinenId : PyVal
  scrapIndex : PyVal
  value : ℚ
  zeitstempel : ℤ
deriving DecidableEq

/-- The two exceptions an Aggregator.add call can raise: the ValueError
from datetime.fromisoformat (the spec's MalformedTimestamp) and the
ValueError/TypeError from float() (the spec's InvalidValue). -/
inductive AddErr where
  | malformedTimestamp : AddErr
  | invalidValue : AddErr
deriving DecidableEq

/-- Character-level model of the Python expression replacing every
occurrence of Z with +00:00 in the timestamp string. -/
def replaceZchars : List Char → List Char
  | [] => []
  | c :: cs =>
    if c = 'Z' then '+' :: '0' :: '0' :: ':' :: '0' :: '0' :: replaceZchars cs
    else c :: replaceZchars cs

/-- Model of the Python expression timestamp.replace applied with
pattern Z and replacement +00:00: Z is a single character, so replacing
the substring is replacing each occurrence of the character. -/
def replaceZ (s : String) : String := String.mk (replaceZchars s.data)

/-- The timestamp-normalization block of Aggregator.add: a datetime is
used directly (naive ones get tzinfo=utc), a string is parsed with
fromisoformat after replacing every Z by +00:00, anything else falls to
datetime.now(timezone.utc).  Returns the absolute instant in
microseconds. -/
def parseTs (t : PyVal) (now : ℤ) : Except AddErr ℤ :=
  match t with
  | PyVal.dt wall off => Except.ok (wall - (off.getD 0) * 1000000)
  | PyVal.str s =>
    match fromiso (replaceZ s) with
    | Option.some (wall, off) => Except.ok (wall - (off.getD 0) * 1000000)
    | Option.none => Except.error AddErr.malformedTimestamp
  | _ => Except.ok now

/-- The machine-id resolution of Aggregator.add, the Python expression
payload.get of machineId or payload.get of maschinenId. -/
def resolvedMachine (p : Payload) : PyVal :=
  pyOr (Payload.get p (r"machineId")) (Payload.get p (r"maschinenId"))

/-- The sensor-index resolution of Aggregator.add, the Python expression
payload.get of scrapIndex or payload.get of scrapeIndex. -/
def resolvedIndex (p : Payload) : PyVal :=
  pyOr (Payload.get p (r"scrapIndex")) (Payload.get p (r"scrapeIndex"))

/-- The timestamp resolution of Aggregator.add, the Python expression
payload.get of timestamp or payload.get of zeitstempel. -/
def resolvedTs (p : Payload) : PyVal :=
  pyOr (Payload.get p (r"timestamp")) (Payload.get p (r"zeitstempel"))

/-- Aggregator.add.  Field resolution uses Python or, so a falsy first
spelling falls through to the second; the value field is read under the
single key value.  The result is the raised exception (if any) paired
with the buffer contents afterwards; the append is the method's final
statement, so every raising path leaves the buffer unchanged. -/
def add (st : List PyRow) (now : ℤ) (p : Payload) : Option AddErr × List PyRow :=
  let machine_id := resolvedMachine p
  let scrap_index := resolvedIndex p
  let value := Payload.get p (r"value")
  let timestamp := resolvedTs p
  if machine_id = PyVal.none ∨ scrap_index = PyVal.none ∨ value = PyVal.none then
    (Option.none, st)
  else
    match parseTs timestamp now with
    | Except.error e => (Option.some e, st)
    | Except.ok ts =>
      match toFloat? value with
      | Option.none => (Option.some AddErr.invalidValue, st)
      | Option.some v =>
        (Option.none, st ++ [{ maschinenId := machine_id, scrapIndex := scrap_index,
                               value := v, zeitstempel := ts }])

/-- One output row of Aggregator.aggregate: the group key columns and
the aggregated sum, mean and count columns. -/
structure OutRow where
  maschinenId : PyVal
  scrapIndex : PyVal
  sumLast60s : ℚ
  avgLast60s : ℚ
  messageCount : ℕ
deriving DecidableEq

/-- The composite group key of a buffered row. -/
def rowKey (r : PyRow) : PyVal × PyVal := (r.maschinenId, r.scrapIndex)

/-- The values of the readings of one group, in buffer order. -/
def groupVals (recent : List PyRow) (k : PyVal × PyVal) : List ℚ :=
  (recent.filter (fun r => decide (rowKey r = k))).map PyRow.value

/-- The aggregated output row of one group: sum, mean computed as the
Polars mean kernel does (sum divided by count) and count. -/
def mkOut (recent : List PyRow) (k : PyVal × PyVal) : OutRow :=
  { maschinenId := k.1
    scrapIndex := k.2
    sumLast60s := (groupVals recent k).sum
    avgLast60s := (groupVals recent k).sum / ((groupVals recent k).length : ℚ)
    messageCount := (groupVals recent k).length }

/-- Rank of a PyVal constructor, used to make the sort comparator total
on the whole value type (Polars only ever sorts a column of one dtype,
so cross-rank comparisons never arise on states it accepts). -/
def pvRank : PyVal → ℕ
  | PyVal.none => 0
  | PyVal.bool _ => 1
  | PyVal.int _ => 2
  | PyVal.float _ => 3
  | PyVal.str _ => 4
  | PyVal.dt _ _ => 5

/-- Comparison of optional offsets, none first. -/
def offLtB : Option ℤ → Option ℤ → Bool
  | Option.none, Option.some _ => true
  | Option.some a, Option.some b => decide (a < b)
  | _, _ => false

/-- Strict comparison of key values: by rank, then by the natural order
of the constructor's payload; strings compare lexicographically by code
point, matching the Polars ascending string sort. -/
def pvLtB (x y : PyVal) : Bool :=
  if pvRank x = pvRank y then
    match x, y with
    | PyVal.bool a, PyVal.bool b => !a && b
    | PyVal.int a, PyVal.int b => decide (a < b)
    | PyVal.float a, PyVal.float b => decide (a < b)
    | PyVal.str a, PyVal.str b => decide (a.data < b.data)
    | PyVal.dt w1 o1, PyVal.dt w2 o2 => decide (w1 < w2) || (decide (w1 = w2) && offLtB o1 o2)
    | _, _ => false
  else decide (pvRank x < pvRank y)

/-- The sort relation of aggregate's final .sort call: ascending by the
maschinenId column, then by the scrapIndex column. -/
def rowLeB (a b : OutRow) : Bool :=
  pvLtB a.maschinenId b.maschinenId ||
    (decide (a.maschinenId = b.maschinenId) &&
      (pvLtB a.scrapIndex b.scrapIndex || decide (a.scrapIndex = b.scrapIndex)))

/-- Propositional form of the sort comparator. -/
def rowLe (a b : OutRow) : Prop := rowLeB a b = true

instance : DecidableRel rowLe := fun a b => instDecidableEqBool (rowLeB a b) true

/-- The grouped, aggregated and sorted output built from the recent
partition: one row per distinct key, sorted by the key columns. -/
def aggOut (recent : List PyRow) : List OutRow :=
  List.insertionSort rowLe (((recent.map rowKey).dedup).map (mkOut recent))

/-- Aggregator.aggregate for a window of w seconds at wall-clock instant
now (microseconds since epoch): returns the buffer contents after the
call together with the returned rows (an empty frame is the empty
list).  An empty buffer returns immediately; otherwise the recent
partition replaces the buffer and, if non-empty, is grouped, aggregated
and sorted.  This definition is the success path of the method, the
pipeline run once the frame construction has accepted the buffered
rows; the raising path of the strict pl.DataFrame construction is
modelled separately by dfSchemaOk and aggregateRun below. -/
def aggregate (w : ℤ) (st : List PyRow) (now : ℤ) : List PyRow × List OutRow :=
  if st = [] then (st, [])
  else
    let cutoff := now - w * 1000000
    let recent := st.filter (fun r => decide (cutoff ≤ r.zeitstempel))
    if recent = [] then (recent, [])
    else (recent, aggOut recent)

/-- The Polars dtype a stored Python value is read as during the strict
row-wise frame construction of aggregate. -/
inductive PlDtype where
  | null : PlDtype
  | boolean : PlDtype
  | int64 : PlDtype
  | float64 : PlDtype
  | string : PlDtype
  | datetime : PlDtype
deriving DecidableEq

/-- Dtype of a stored value. -/
def pvDtype : PyVal → PlDtype
  | PyVal.none => PlDtype.null
  | PyVal.bool _ => PlDtype.boolean
  | PyVal.int _ => PlDtype.int64
  | PyVal.float _ => PlDtype.float64
  | PyVal.str _ => PlDtype.string
  | PyVal.dt _ _ => PlDtype.datetime

/-- Supertype unification performed while inferring one column's dtype:
equal dtypes unify, the numeric chain boolean, int64, float64 unifies
upward (Polars casts these during inference), and any other mix of
distinct dtypes makes the strict construction raise. -/
def dtypeUnify (d1 d2 : PlDtype) : Option PlDtype :=
  if d1 = d2 then Option.some d1
  else
    match d1, d2 with
    | PlDtype.boolean, PlDtype.int64 => Option.some PlDtype.int64
    | PlDtype.int64, PlDtype.boolean => Option.some PlDtype.int64
    | PlDtype.boolean, PlDtype.float64 => Option.some PlDtype.float64
    | PlDtype.float64, PlDtype.boolean => Option.some PlDtype.float64
    | PlDtype.int64, PlDtype.float64 => Option.some PlDtype.float64
    | PlDtype.float64, PlDtype.int64 => Option.some PlDtype.float64
    | _, _ => Option.none

/-- Fold of dtypeUnify over the remaining values of a column. -/
def unifyFrom : PlDtype → List PyVal → Option PlDtype
  | d, [] => Option.some d
  | d, v :: vs =>
    match dtypeUnify d (pvDtype v) with
    | Option.some d2 => unifyFrom d2 vs
    | Option.none => Option.none

/-- Whether one column's values unify to a single dtype. -/
def schemaOkCol : List PyVal → Bool
  | [] => true
  | v :: vs => (unifyFrom (pvDtype v) vs).isSome

/-- Whether the strict pl.DataFrame construction inside aggregate
accepts the buffered rows.  The value column is always Float64 and the
timestamp column always the single datetime representation of this
embedding, so only the two key columns, which add stores verbatim, can
hold conflicting dtypes. -/
def dfSchemaOk (st : List PyRow) : Bool :=
  schemaOkCol (st.map PyRow.maschinenId) && schemaOkCol (st.map PyRow.scrapIndex)

/-- The exception the Polars frame construction raises when a column's
value types cannot be unified to one dtype. -/
inductive PolarsErr where
  | mixedDtypeColumn : PolarsErr
deriving DecidableEq

/-- Aggregator.aggregate with the raising path of the frame
construction made explicit: an empty buffer returns the empty frame
before any construction, so that path cannot raise; otherwise
pl.DataFrame(self.rows) runs first and raises when a key column holds
values of incompatible dtypes (such states are reachable, since add
stores the resolved key fields verbatim without validation); when the
construction accepts the buffer the rest of the call is the aggregate
pipeline.  Readings stored from offset-less ISO strings are tz-naive in
the program and give a further raising path at the tz-aware cutoff
comparison; this embedding represents timestamps as UTC instants (the
spec's data-model normalization), so that path is outside its scope. -/
def aggregateRun (w : ℤ) (st : List PyRow) (now : ℤ) :
    Except PolarsErr (List PyRow × List OutRow) :=
  if st = [] then Except.ok (st, [])
  else if dfSchemaOk st then Except.ok (aggregate w st now)
  else Except.error PolarsErr.mixedDtypeColumn

/-- Civil date (year, month, day) of a day count since 1970-01-01
(standard days-to-civil algorithm, Gregorian calendar). -/
def civilFromDays (z0 : ℤ) : ℤ × ℤ × ℤ :=
  let z := z0 + 719468
  let era := Int.fdiv z 146097
  let doe := z - era * 146097
  let yoe := Int.fdiv (doe - Int.fdiv doe 1460 + Int.fdiv doe 36524 - Int.fdiv doe 146096) 365
  let y := yoe + era * 400
  let doy := doe - (365 * yoe + Int.fdiv yoe 4 - Int.fdiv yoe 100)
  let mp := Int.fdiv (5 * doy + 2) 153
  let d := doy - Int.fdiv (153 * mp + 2) 5 + 1
  let m := mp + (if mp < 10 then 3 else -9)
  (if m ≤ 2 then y + 1 else y, m, d)

/-- Decimal digits padded to width 2. -/
def pad2 (n : ℕ) : String := if n < 10 then (r"0") ++ toString n else toString n

/-- Decimal digits padded to width 4. -/
def pad4 (n : ℕ) : String :=
  if n < 10 then (r"000") ++ toString n
  else if n < 100 then (r"00") ++ toString n
  else if n < 1000 then (r"0") ++ toString n
  else toString n

/-- Model of datetime.now(timezone.utc).strftime of the pattern used by
process_mqtt_message: an ISO-8601 UTC timestamp with second precision
and a trailing Z, rendered from the broadcast-time instant. -/
def formatTs (now : ℤ) : String :=
  let secs := Int.fdiv now 1000000
  let days := Int.fdiv secs 86400
  let sod := (Int.fmod secs 86400).toNat
  let c := civilFromDays days
  pad4 c.1.toNat ++ (r"-") ++ pad2 c.2.1.toNat ++ (r"-") ++ pad2 c.2.2.toNat ++
    (r"T") ++ pad2 (sod / 3600) ++ (r":") ++ pad2 (sod % 3600 / 60) ++ (r":") ++
    pad2 (sod % 60) ++ (r"Z")

/-- Model of Python round(x, 2) on the exact rational embedding of
doubles: round half to even at two decimal places. -/
def round2 (q : ℚ) : ℚ :=
  let z := q * 100
  let fl : ℤ := Int.floor z
  let frac := z - (fl : ℚ)
  let n : ℤ :=
    if frac < 1 / 2 then fl
    else if 1 / 2 < frac then fl + 1
    else if fl % 2 = 0 then fl else fl + 1
  (n : ℚ) / 100

/-- The JSON object process_mqtt_message builds from one aggregate row
and hands to the broadcast manager, with the broadcast-time wall clock
passed in as an instant. -/
def broadcast_data (row : OutRow) (now : ℤ) : List (String × PyVal) :=
  [((r"maschinenId"), row.maschinenId),
   ((r"scrapIndex"), row.scrapIndex),
   ((r"sumLast60s"), PyVal.float row.sumLast60s),
   ((r"avgLast60s"), PyVal.float (round2 row.avgLast60s)),
   ((r"timestamp"), PyVal.str (formatTs now))]

/-- Number of buffered readings matching a group key whose timestamp is
at or after a cutoff: the denotation the spec gives to a returned
count. -/
def matchCount (st : List PyRow) (k : PyVal × PyVal) (cut : ℤ) : ℕ :=
  (st.filter (fun r => decide (rowKey r = k) && decide (cut ≤ r.zeitstempel))).length

theorem mkOut_key (recent : List PyRow) (k : PyVal × PyVal) :
    ((mkOut recent k).maschinenId, (mkOut recent k).scrapIndex) = k := rfl

theorem aggOut_perm (recent : List PyRow) :
    List.Perm (aggOut recent) (((recent.map rowKey).dedup).map (mkOut recent)) :=
  List.perm_insertionSort rowLe _

theorem mem_aggOut {recent : List PyRow} {row : OutRow} :
    row ∈ aggOut recent ↔ ∃ k ∈ (recent.map rowKey).dedup, row = mkOut recent k := by
  rw [(aggOut_perm recent).mem_iff]
  constructor
  · intro h
    rcases List.mem_map.mp h with ⟨k, hk, rfl⟩
    exact ⟨k, hk, rfl⟩
  · rintro ⟨k, hk, rfl⟩
    exact List.mem_map.mpr ⟨k, hk, rfl⟩

theorem groupVals_length (recent : List PyRow) (k : PyVal × PyVal) :
    (groupVals recent k).length = (recent.filter (fun r => decide (rowKey r = k))).length := by
  simp [groupVals]

theorem aggregate_empty (w now : ℤ) : aggregate w [] now = ([], []) := rfl

section SortLemmas

variable {α : Type _} (r : α → α → Prop) [DecidableRel r] (P : α → Prop)

theorem pairwise_orderedInsert
    (total : ∀ a b, P a → P b → r a b ∨ r b a)
    (tr : ∀ a b c, P a → P b → P c → r a b → r b c → r a c)
    (a : α) (ha : P a) :
    ∀ l : List α, List.Pairwise r l → (∀ x ∈ l, P x) → List.Pairwise r (List.orderedInsert r a l) := by
  intro l
  induction l with
  | nil => intro _ _; simp
  | cons b t ih =>
    intro hp hP
    by_cases hab : r a b
    · rw [List.orderedInsert_of_le r t hab]
      refine List.Pairwise.cons ?_ hp
      intro x hx
      rcases List.mem_cons.mp hx with rfl | hxt
      · exact hab
      · exact tr a b x ha (hP b (List.mem_cons_self b t)) (hP x (List.mem_cons_of_mem b hxt))
          hab ((List.pairwise_cons.mp hp).1 x hxt)
    · have hba : r b a := (total a b ha (hP b (List.mem_cons_self b t))).resolve_left hab
      have : List.orderedInsert r a (b :: t) = b :: List.orderedInsert r a t := by
        simp [List.orderedInsert, hab]
      rw [this]
      refine List.Pairwise.cons ?_ (ih (List.pairwise_cons.mp hp).2
        (fun x hx => hP x (List.mem_cons_of_mem b hx)))
      intro x hx
      rcases (List.mem_orderedInsert r).mp hx with rfl | hxt
      · exact hba
      · exact (List.pairwise_cons.mp hp).1 x hxt

theorem pairwise_insertionSort
    (total : ∀ a b, P a → P b → r a b ∨ r b a)
    (tr : ∀ a b c, P a → P b → P c → r a b → r b c → r a c) :
    ∀ l : List α, (∀ x ∈ l, P x) → List.Pairwise r (List.insertionSort r l) := by
  intro l
  induction l with
  | nil => intro _; simp
  | cons a t ih =>
    intro hP
    have hsort : List.insertionSort r (a :: t) = List.orderedInsert r a (List.insertionSort r t) := rfl
    rw [hsort]
    refine pairwise_orderedInsert r P total tr a (hP a (List.mem_cons_self a t))
      (List.insertionSort r t) (ih (fun x hx => hP x (List.mem_cons_of_mem a hx))) ?_
    intro x hx
    exact hP x (List.mem_cons_of_mem a ((List.mem_insertionSort r).mp hx))

end SortLemmas

theorem countP_eq_one_of_nodup_mem {α : Type _} [DecidableEq α] {l : List α} {a : α}
    (hn : l.Nodup) (ha : a ∈ l) : l.countP (fun x => decide (x = a)) = 1 := by
  induction l with
  | nil => cases ha
  | cons b t ih =>
    rcases List.mem_cons.mp ha with rfl | hat
    · have h0 : t.countP (fun x => decide (x = a)) = 0 := by
        refine List.countP_eq_zero.mpr ?_
        intro x hx
        simp only [decide_eq_true_eq]
        intro hxa
        exact (List.nodup_cons.mp hn).1 (hxa ▸ hx)
      simp [List.countP_cons, h0]
    · have hba : b ≠ a := by
        rintro rfl
        exact (List.nodup_cons.mp hn).1 hat
      have := ih (List.nodup_cons.mp hn).2 hat
      simp [List.countP_cons, this, hba]

theorem rowLe_char {a b : OutRow} {s1 s2 : String} {n1 n2 : ℤ}
    (ha1 : a.maschinenId = PyVal.str s1) (ha2 : a.scrapIndex = PyVal.int n1)
    (hb1 : b.maschinenId = PyVal.str s2) (hb2 : b.scrapIndex = PyVal.int n2) :
    rowLe a b ↔ (s1 < s2 ∨ (s1 = s2 ∧ (n1 < n2 ∨ n1 = n2))) := by
  simp [rowLe, rowLeB, pvLtB, pvRank, ha1, ha2, hb1, hb2]

theorem mkOut_count (st : List PyRow) (cut : ℤ) (k : PyVal × PyVal) :
    (mkOut (st.filter (fun r => decide (cut ≤ r.zeitstempel))) k).messageCount
      = matchCount st k cut := by
  simp [mkOut, matchCount, groupVals, List.filter_filter]

theorem aggregate_eq {w now : ℤ} {st : List PyRow} (hst : st ≠ [])
    (hrec : st.filter (fun r => decide (now - w * 1000000 ≤ r.zeitstempel)) ≠ []) :
    aggregate w st now =
      (st.filter (fun r => decide (now - w * 1000000 ≤ r.zeitstempel)),
       aggOut (st.filter (fun r => decide (now - w * 1000000 ≤ r.zeitstempel)))) := by
  simp only [aggregate, if_neg hst, if_neg hrec]

theorem aggregate_counts (w now : ℤ) (st : List PyRow) :
    ∀ row ∈ (aggregate w st now).2,
      row.messageCount = matchCount st (row.maschinenId, row.scrapIndex) (now - w * 1000000) := by
  by_cases hst : st = []
  · subst hst
    intro row hrow
    rw [aggregate_empty] at hrow
    cases hrow
  · by_cases hrec : st.filter (fun r => decide (now - w * 1000000 ≤ r.zeitstempel)) = []
    · intro row hrow
      simp only [aggregate] at hrow
      rw [if_neg hst, if_pos hrec] at hrow
      cases hrow
    · rw [aggregate_eq hst hrec]
      intro row hrow
      rcases mem_aggOut.mp hrow with ⟨k, hk, rfl⟩
      have hkk := mkOut_key (st.filter (fun r => decide (now - w * 1000000 ≤ r.zeitstempel))) k
      rw [hkk]
      exact mkOut_count st (now - w * 1000000) k

theorem aggregate_group_unique (w now : ℤ) (st : List PyRow) (k : PyVal × PyVal)
    (hex : ∃ r ∈ st, rowKey r = k ∧ now - w * 1000000 ≤ r.zeitstempel) :
    (aggregate w st now).2.countP
      (fun row => decide ((row.maschinenId, row.scrapIndex) = k)) = 1 := by
  rcases hex with ⟨r, hr, hkey, hts⟩
  have hst : st ≠ [] := fun h => by subst h; cases hr
  have hrrec : r ∈ st.filter (fun r => decide (now - w * 1000000 ≤ r.zeitstempel)) :=
    List.mem_filter.mpr ⟨hr, by simpa using hts⟩
  have hrec : st.filter (fun r => decide (now - w * 1000000 ≤ r.zeitstempel)) ≠ [] := by
    intro h
    rw [h] at hrrec
    cases hrrec
  rw [aggregate_eq hst hrec]
  have hkmem : k ∈ ((st.filter (fun r => decide (now - w * 1000000 ≤ r.zeitstempel))).map rowKey).dedup :=
    List.mem_dedup.mpr (List.mem_map.mpr ⟨r, hrrec, hkey⟩)
  rw [(aggOut_perm _).countP_eq, List.countP_map]
  exact countP_eq_one_of_nodup_mem (List.nodup_dedup _) hkmem

/-- Claim C1: for every buffer state reached by Add calls, each row
returned by Compute has count equal to the number of retained readings
matching that row's (machineId, sensorIndex) key with timestamp at or
after now minus the window, and exactly one output row exists per
non-empty group. -/
theorem claim_C1 (w now : ℤ) (st : List PyRow) :
    (∀ row ∈ (aggregate w st now).2,
        row.messageCount = matchCount st (row.maschinenId, row.scrapIndex) (now - w * 1000000)) ∧
    (∀ k : PyVal × PyVal,
        (∃ r ∈ st, rowKey r = k ∧ now - w * 1000000 ≤ r.zeitstempel) →
          (aggregate w st now).2.countP
            (fun row => decide ((row.maschinenId, row.scrapIndex) = k)) = 1) :=
  ⟨aggregate_counts w now st, fun k hex => aggregate_group_unique w now st k hex⟩

/-- Claim C2: every row returned by Compute has count at least one and
mean exactly equal to sum divided by count (in the exact-rational model
of the double arithmetic, whose mean kernel is sum over count). -/
theorem claim_C2 (w now : ℤ) (st : List PyRow) :
    ∀ row ∈ (aggregate w st now).2,
      1 ≤ row.messageCount ∧ row.avgLast60s = row.sumLast60s / (row.messageCount : ℚ) := by
  by_cases hst : st = []
  · subst hst
    intro row hrow
    rw [aggregate_empty] at hrow
    cases hrow
  · by_cases hrec : st.filter (fun r => decide (now - w * 1000000 ≤ r.zeitstempel)) = []
    · intro row hrow
      simp only [aggregate] at hrow
      rw [if_neg hst, if_pos hrec] at hrow
      cases hrow
    · rw [aggregate_eq hst hrec]
      intro row hrow
      rcases mem_aggOut.mp hrow with ⟨k, hk, rfl⟩
      rcases List.mem_map.mp (List.mem_dedup.mp hk) with ⟨r, hrmem, hrk⟩
      constructor
      · have : r ∈ (st.filter (fun r => decide (now - w * 1000000 ≤ r.zeitstempel))).filter
            (fun x => decide (rowKey x = k)) :=
          List.mem_filter.mpr ⟨hrmem, by simpa using hrk⟩
        have hpos : 0 < (groupVals (st.filter (fun r => decide (now - w * 1000000 ≤ r.zeitstempel))) k).length := by
          rw [groupVals_length]
          exact List.length_pos.mpr (fun h => by rw [h] at this; cases this)
        simpa [mkOut] using hpos
      · rfl

theorem aggregate_all_expired (w now : ℤ) (st : List PyRow)
    (hall : ∀ x ∈ st, x.zeitstempel < now - w * 1000000) :
    aggregate w st now = ([], []) := by
  by_cases hst : st = []
  · subst hst
    exact aggregate_empty w now
  · have hfil : st.filter (fun r => decide (now - w * 1000000 ≤ r.zeitstempel)) = [] := by
      refine List.filter_eq_nil_iff.mpr ?_
      intro a ha
      simpa using not_le.mpr (hall a ha)
    simp only [aggregate, if_neg hst]
    rw [hfil]
    simp

def c6payloadA : Payload :=
  [((r"machineId"), PyVal.str (r"A1")), ((r"scrapIndex"), PyVal.int 1),
   ((r"value"), PyVal.float 1)]

def c6payloadB : Payload :=
  [((r"machineId"), PyVal.str (r"A1")), ((r"scrapIndex"), PyVal.str (r"2")),
   ((r"value"), PyVal.float 1)]

/-- Counterexample to claim C6: two Add calls, both successful (no
error raised), leave a buffer whose scrapIndex column holds the int 1
and the string 2; on that reachable state the next Compute raises at
the strict frame construction instead of returning, so Compute does
have a failure mode on reachable buffer states. -/
theorem claim_C6_cex :
    (add [] 5 c6payloadA).1 = Option.none ∧
    (add (add [] 5 c6payloadA).2 6 c6payloadB).1 = Option.none ∧
    aggregateRun 60 (add (add [] 5 c6payloadA).2 6 c6payloadB).2 7 =
      Except.error PolarsErr.mixedDtypeColumn := by
  refine ⟨rfl, rfl, ?_⟩
  rfl

/-- Claim C6 as amended: Compute never raises on an empty buffer
(returned before any frame construction), and on every buffer whose key
columns each unify to a single dtype it has no failure modes, behaving
as the total pipeline; in particular, when additionally every retained
reading is expired, it evicts them all and returns the empty result
set. -/
theorem claim_C6_amended (w now : ℤ) :
    aggregateRun w [] now = Except.ok ([], []) ∧
    (∀ st : List PyRow, dfSchemaOk st = true →
      aggregateRun w st now = Except.ok (aggregate w st now)) ∧
    (∀ st : List PyRow, dfSchemaOk st = true →
      (∀ x ∈ st, x.zeitstempel < now - w * 1000000) →
        aggregateRun w st now = Except.ok ([], [])) := by
  have hok : ∀ st : List PyRow, dfSchemaOk st = true →
      aggregateRun w st now = Except.ok (aggregate w st now) := by
    intro st hschema
    by_cases hst : st = []
    · subst hst
      rfl
    · simp only [aggregateRun, if_neg hst, hschema, if_true]
  refine ⟨rfl, hok, ?_⟩
  intro st hschema hall
  rw [hok st hschema, aggregate_all_expired w now st hall]

/-- The key-wellformedness predicate of the spec's data model: machine
id a string, sensor index an integer. -/
def wellKeyed (row : OutRow) : Prop :=
  (∃ s, row.maschinenId = PyVal.str s) ∧ (∃ n, row.scrapIndex = PyVal.int n)

theorem rowLe_total_wellKeyed (a b : OutRow) (ha : wellKeyed a) (hb : wellKeyed b) :
    rowLe a b ∨ rowLe b a := by
  rcases ha with ⟨⟨s1, hs1⟩, ⟨n1, hn1⟩⟩
  rcases hb with ⟨⟨s2, hs2⟩, ⟨n2, hn2⟩⟩
  rw [rowLe_char hs1 hn1 hs2 hn2, rowLe_char hs2 hn2 hs1 hn1]
  rcases lt_trichotomy s1 s2 with h | h | h
  · exact Or.inl (Or.inl h)
  · rcases lt_trichotomy n1 n2 with h2 | h2 | h2
    · exact Or.inl (Or.inr ⟨h, Or.inl h2⟩)
    · exact Or.inl (Or.inr ⟨h, Or.inr h2⟩)
    · exact Or.inr (Or.inr ⟨h.symm, Or.inl h2⟩)
  · exact Or.inr (Or.inl h)

theorem rowLe_trans_wellKeyed (a b c : OutRow)
    (ha : wellKeyed a) (hb : wellKeyed b) (hc : wellKeyed c)
    (hab : rowLe a b) (hbc : rowLe b c) : rowLe a c := by
  rcases ha with ⟨⟨s1, hs1⟩, ⟨n1, hn1⟩⟩
  rcases hb with ⟨⟨s2, hs2⟩, ⟨n2, hn2⟩⟩
  rcases hc with ⟨⟨s3, hs3⟩, ⟨n3, hn3⟩⟩
  rw [rowLe_char hs1 hn1 hs2 hn2] at hab
  rw [rowLe_char hs2 hn2 hs3 hn3] at hbc
  rw [rowLe_char hs1 hn1 hs3 hn3]
  rcases hab with h12 | ⟨h12, h12n⟩
  · rcases hbc with h23 | ⟨h23, -⟩
    · exact Or.inl (lt_trans h12 h23)
    · exact Or.inl (h23 ▸ h12)
  · rcases hbc with h23 | ⟨h23, h23n⟩
    · exact Or.inl (h12 ▸ h23)
    · refine Or.inr ⟨h12.trans h23, ?_⟩
      rcases h12n with h | h
      · rcases h23n with h2 | h2
        · exact Or.inl (lt_trans h h2)
        · exact Or.inl (h2 ▸ h)
      · rcases h23n with h2 | h2
        · exact Or.inl (h ▸ h2)
        · exact Or.inr (h.trans h2)

/-- Claim C7: when every buffered reading has a string machine id and an
integer sensor index (the spec's data model), the rows returned by
Compute are sorted ascending by machineId (lexicographic string order)
and then strictly by sensorIndex within equal machineId. -/
theorem claim_C7 (w now : ℤ) (st : List PyRow)
    (hm : ∀ r ∈ st, ∃ s, r.maschinenId = PyVal.str s)
    (hi : ∀ r ∈ st, ∃ n, r.scrapIndex = PyVal.int n) :
    (aggregate w st now).2.Pairwise (fun a b =>
      (∃ s1 s2, a.maschinenId = PyVal.str s1 ∧ b.maschinenId = PyVal.str s2 ∧ s1 < s2) ∨
      (a.maschinenId = b.maschinenId ∧
        ∃ n1 n2, a.scrapIndex = PyVal.int n1 ∧ b.scrapIndex = PyVal.int n2 ∧ n1 < n2)) := by
  by_cases hst : st = []
  · subst hst
    rw [aggregate_empty]
    exact List.Pairwise.nil
  · by_cases hrec : st.filter (fun r => decide (now - w * 1000000 ≤ r.zeitstempel)) = []
    · simp only [aggregate]
      rw [if_neg hst, if_pos hrec]
      exact List.Pairwise.nil
    · rw [aggregate_eq hst hrec]
      set recent := st.filter (fun r => decide (now - w * 1000000 ≤ r.zeitstempel)) with hrecdef
      have hsub : ∀ r ∈ recent, r ∈ st := fun r hr => (List.mem_filter.mp hr).1
      -- every row of the unsorted grouped list is well keyed
      have hbase : ∀ row ∈ ((recent.map rowKey).dedup).map (mkOut recent), wellKeyed row := by
        intro row hrow
        rcases List.mem_map.mp hrow with ⟨k, hk, rfl⟩
        rcases List.mem_map.mp (List.mem_dedup.mp hk) with ⟨r, hrmem, hrk⟩
        constructor
        · rcases hm r (hsub r hrmem) with ⟨s, hs⟩
          exact ⟨s, by rw [show (mkOut recent k).maschinenId = k.1 from rfl, ← hrk, ← hs]; rfl⟩
        · rcases hi r (hsub r hrmem) with ⟨n, hn⟩
          exact ⟨n, by rw [show (mkOut recent k).scrapIndex = k.2 from rfl, ← hrk, ← hn]; rfl⟩
      have hsorted : (aggOut recent).Pairwise rowLe :=
        pairwise_insertionSort rowLe wellKeyed rowLe_total_wellKeyed
          (fun a b c => rowLe_trans_wellKeyed a b c) _ hbase
      have hWK : ∀ row ∈ aggOut recent, wellKeyed row := by
        intro row hrow
        exact hbase row ((List.mem_insertionSort rowLe).mp hrow)
      -- keys are distinct across output rows
      have hkeysbase : (((recent.map rowKey).dedup).map (mkOut recent)).Pairwise
          (fun a b => (a.maschinenId, a.scrapIndex) ≠ (b.maschinenId, b.scrapIndex)) := by
        rw [List.pairwise_map]
        have hnd : ((recent.map rowKey).dedup).Pairwise (fun a b => a ≠ b) :=
          List.nodup_dedup _
        refine hnd.imp_of_mem ?_
        intro k1 k2 hk1 hk2 hne
        rw [mkOut_key, mkOut_key]
        exact hne
      have hkeys : (aggOut recent).Pairwise
          (fun a b => (a.maschinenId, a.scrapIndex) ≠ (b.maschinenId, b.scrapIndex)) := by
        refine ((aggOut_perm recent).pairwise_iff ?_).mpr hkeysbase
        intro x y h
        exact fun h2 => h h2.symm
      refine (hsorted.and hkeys).imp_of_mem ?_
      intro a b hain hbin hcomb
      rcases hWK a hain with ⟨⟨s1, hs1⟩, ⟨n1, hn1⟩⟩
      rcases hWK b hbin with ⟨⟨s2, hs2⟩, ⟨n2, hn2⟩⟩
      rcases hcomb with ⟨hle, hne⟩
      rw [rowLe_char hs1 hn1 hs2 hn2] at hle
      rcases hle with h | ⟨hseq, hn⟩
      · exact Or.inl ⟨s1, s2, hs1, hs2, h⟩
      · rcases hn with h | h
        · exact Or.inr ⟨by rw [hs1, hs2, hseq], n1, n2, hn1, hn2, h⟩
        · exfalso
          apply hne
          rw [hs1, hs2, hseq, hn1, hn2, h]

/-- A resolved timestamp value of neither datetime nor string type: the
fall-through branch of the timestamp normalization. -/
def tsFallthrough : PyVal → Prop
  | PyVal.dt _ _ => False
  | PyVal.str _ => False
  | _ => True

def c4payload : Payload :=
  [((r"machineId"), PyVal.str (r"A1")), ((r"scrapIndex"), PyVal.int 0),
   ((r"value"), PyVal.float 2)]

/-- Counterexample to claim C4: the payload supplies machineId, a
sensor index of 0 under the first spelling scrapIndex, and a value, so
all three required fields are present, yet add stores nothing and
raises nothing, because Python or treats the falsy index 0 as missing. -/
theorem claim_C4_cex :
    Payload.get c4payload (r"machineId") = PyVal.str (r"A1") ∧
    Payload.get c4payload (r"scrapIndex") = PyVal.int 0 ∧
    Payload.get c4payload (r"value") = PyVal.float 2 ∧
    add [] 0 c4payload = (Option.none, []) := by
  refine ⟨rfl, rfl, rfl, ?_⟩
  decide

/-- Claim C4 as amended: add resolves machine id, sensor index and
timestamp by Python or over the two spellings (first spelling preferred
exactly when truthy), reads value under the single key value, is a
silent no-op exactly when a resolved required field is None, and
otherwise either raises or appends exactly one Reading built from the
resolved values. -/
theorem claim_C4_amended (st : List PyRow) (now : ℤ) (p : Payload) :
    (resolvedMachine p = PyVal.none ∨ resolvedIndex p = PyVal.none ∨
        Payload.get p (r"value") = PyVal.none →
      add st now p = (Option.none, st)) ∧
    (resolvedMachine p ≠ PyVal.none → resolvedIndex p ≠ PyVal.none →
      Payload.get p (r"value") ≠ PyVal.none →
      (∃ e, add st now p = (Option.some e, st)) ∨
        (∃ q t, add st now p =
          (Option.none, st ++ [{ maschinenId := resolvedMachine p,
                                 scrapIndex := resolvedIndex p,
                                 value := q, zeitstempel := t }]))) ∧
    (truthy (Payload.get p (r"machineId")) = true →
      resolvedMachine p = Payload.get p (r"machineId")) ∧
    (truthy (Payload.get p (r"machineId")) = false →
      resolvedMachine p = Payload.get p (r"maschinenId")) := by
  refine ⟨?_, ?_, ?_, ?_⟩
  · intro h
    simp only [add]
    rw [if_pos h]
  · intro h1 h2 h3
    have hguard : ¬ (resolvedMachine p = PyVal.none ∨ resolvedIndex p = PyVal.none ∨
        Payload.get p (r"value") = PyVal.none) := by
      push_neg
      exact ⟨h1, h2, h3⟩
    simp only [add]
    rw [if_neg hguard]
    cases hts : parseTs (resolvedTs p) now with
    | error e => exact Or.inl ⟨e, rfl⟩
    | ok t =>
      cases hv : toFloat? (Payload.get p (r"value")) with
      | none => exact Or.inl ⟨AddErr.invalidValue, rfl⟩
      | some q => exact Or.inr ⟨q, t, rfl⟩
  · intro h
    simp only [resolvedMachine, pyOr, h, if_true]
  · intro h
    simp only [resolvedMachine, pyOr, h]
    rfl

def c5payload : Payload :=
  [((r"machineId"), PyVal.str (r"A1")), ((r"scrapIndex"), PyVal.int 1),
   ((r"value"), PyVal.float 1), ((r"timestamp"), PyVal.str (r""))]

/-- Counterexample to claim C5: the payload's timestamp is the string
value of the empty string, which does not parse as ISO-8601, yet add
succeeds silently and stores the reading with the current wall-clock
instant, because the falsy empty string falls out of the or-resolution
and lands in the no-timestamp branch. -/
theorem claim_C5_cex :
    Payload.get c5payload (r"timestamp") = PyVal.str (r"") ∧
    fromiso (r"") = Option.none ∧
    add [] 777 c5payload =
      (Option.none, [{ maschinenId := PyVal.str (r"A1"), scrapIndex := PyVal.int 1,
                       value := 1, zeitstempel := 777 }]) := by
  refine ⟨rfl, rfl, ?_⟩
  decide

/-- Claim C5 as amended: for an accepted payload, the resolved timestamp
(first spelling if truthy, else second) is normalized as follows: a
datetime is used directly, naive ones assumed UTC; a string is parsed as
ISO-8601 after replacing every Z with +00:00, failing with
MalformedTimestamp exactly when the replaced string does not parse; any
other resolved value (absent, None, falsy such as the empty string, or
of non-string non-datetime type) yields the current wall-clock instant. -/
theorem claim_C5_amended (st : List PyRow) (now : ℤ) (p : Payload) (q : ℚ)
    (hm : resolvedMachine p ≠ PyVal.none) (hi : resolvedIndex p ≠ PyVal.none)
    (hvn : Payload.get p (r"value") ≠ PyVal.none)
    (hv : toFloat? (Payload.get p (r"value")) = Option.some q) :
    (∀ wall off, resolvedTs p = PyVal.dt wall off →
        add st now p = (Option.none,
          st ++ [{ maschinenId := resolvedMachine p, scrapIndex := resolvedIndex p,
                   value := q, zeitstempel := wall - (off.getD 0) * 1000000 }])) ∧
    (∀ s, resolvedTs p = PyVal.str s →
        (∀ wall off, fromiso (replaceZ s) = Option.some (wall, off) →
            add st now p = (Option.none,
              st ++ [{ maschinenId := resolvedMachine p, scrapIndex := resolvedIndex p,
                       value := q, zeitstempel := wall - (off.getD 0) * 1000000 }])) ∧
        (fromiso (replaceZ s) = Option.none →
            add st now p = (Option.some AddErr.malformedTimestamp, st))) ∧
    (tsFallthrough (resolvedTs p) →
        add st now p = (Option.none,
          st ++ [{ maschinenId := resolvedMachine p, scrapIndex := resolvedIndex p,
                   value := q, zeitstempel := now }])) := by
  have hguard : ¬ (resolvedMachine p = PyVal.none ∨ resolvedIndex p = PyVal.none ∨
      Payload.get p (r"value") = PyVal.none) := by
    push_neg
    exact ⟨hm, hi, hvn⟩
  refine ⟨?_, ?_, ?_⟩
  · intro wall off hts
    simp only [add]
    rw [if_neg hguard, hts]
    simp only [parseTs, hv]
  · intro s hts
    constructor
    · intro wall off hpar
      simp only [add]
      rw [if_neg hguard, hts]
      simp only [parseTs, hpar, hv]
    · intro hpar
      simp only [add]
      rw [if_neg hguard, hts]
      simp only [parseTs, hpar]
  · intro hfall
    simp only [add]
    rw [if_neg hguard]
    have : parseTs (resolvedTs p) now = Except.ok now := by
      cases h : resolvedTs p with
      | dt wall off => rw [h] at hfall; cases hfall
      | str s => rw [h] at hfall; cases hfall
      | none => rfl
      | bool b => rfl
      | int n => rfl
      | float x => rfl
    rw [this]
    simp only [hv]

/-- Claim C8: add never changes the buffer on a failing call, and — for
payloads whose required fields resolve and whose timestamp step
succeeds — raises InvalidValue exactly when the value is not
numerically convertible. -/
theorem claim_C8 (st : List PyRow) (now : ℤ) (p : Payload) :
    (∀ e, (add st now p).1 = Option.some e → (add st now p).2 = st) ∧
    (resolvedMachine p ≠ PyVal.none → resolvedIndex p ≠ PyVal.none →
      Payload.get p (r"value") ≠ PyVal.none →
      ∀ t0, parseTs (resolvedTs p) now = Except.ok t0 →
        ((add st now p).1 = Option.some AddErr.invalidValue ↔
          toFloat? (Payload.get p (r"value")) = Option.none)) := by
  constructor
  · intro e
    simp only [add]
    by_cases hguard : resolvedMachine p = PyVal.none ∨ resolvedIndex p = PyVal.none ∨
        Payload.get p (r"value") = PyVal.none
    · rw [if_pos hguard]
      intro h
      cases h
    · rw [if_neg hguard]
      cases hts : parseTs (resolvedTs p) now with
      | error e2 => intro _; rfl
      | ok t =>
        cases hv : toFloat? (Payload.get p (r"value")) with
        | none => intro _; rfl
        | some q => intro h; cases h
  · intro h1 h2 h3 t0 hts
    have hguard : ¬ (resolvedMachine p = PyVal.none ∨ resolvedIndex p = PyVal.none ∨
        Payload.get p (r"value") = PyVal.none) := by
      push_neg
      exact ⟨h1, h2, h3⟩
    simp only [add]
    rw [if_neg hguard, hts]
    cases hv : toFloat? (Payload.get p (r"value")) with
    | none => simp
    | some q =>
      simp only
      constructor
      · intro h
        cases h
      · intro h
        cases h

/-- Claim C10: the sensor index is stored exactly as supplied, with no
coercion (here: a string index is accepted and stored as that string),
and every output row's key columns are the stored values themselves, so
the stored index participates in grouping and sorting with its original
type. -/
theorem claim_C10 (st : List PyRow) (now : ℤ) (p : Payload) (s : String) (q : ℚ)
    (hm : resolvedMachine p ≠ PyVal.none)
    (hidx : resolvedIndex p = PyVal.str s)
    (hv : Payload.get p (r"value") = PyVal.float q)
    (hts : resolvedTs p = PyVal.none) :
    add st now p = (Option.none,
      st ++ [{ maschinenId := resolvedMachine p, scrapIndex := PyVal.str s,
               value := q, zeitstempel := now }]) ∧
    (∀ (w now2 : ℤ) (st2 : List PyRow), ∀ row ∈ (aggregate w st2 now2).2,
      ∃ r ∈ st2, row.maschinenId = r.maschinenId ∧ row.scrapIndex = r.scrapIndex) := by
  constructor
  · have hguard : ¬ (resolvedMachine p = PyVal.none ∨ resolvedIndex p = PyVal.none ∨
        Payload.get p (r"value") = PyVal.none) := by
      push_neg
      refine ⟨hm, ?_, ?_⟩
      · rw [hidx]
        intro h
        cases h
      · rw [hv]
        intro h
        cases h
    simp only [add]
    rw [if_neg hguard, hts, hidx, hv]
    rfl
  · intro w now2 st2 row hrow
    by_cases hst : st2 = []
    · subst hst
      rw [aggregate_empty] at hrow
      cases hrow
    · by_cases hrec : st2.filter (fun r => decide (now2 - w * 1000000 ≤ r.zeitstempel)) = []
      · simp only [aggregate] at hrow
        rw [if_neg hst, if_pos hrec] at hrow
        cases hrow
      · rw [aggregate_eq hst hrec] at hrow
        rcases mem_aggOut.mp hrow with ⟨k, hk, rfl⟩
        rcases List.mem_map.mp (List.mem_dedup.mp hk) with ⟨r, hrmem, hrk⟩
        refine ⟨r, (List.mem_filter.mp hrmem).1, ?_, ?_⟩
        · rw [show (mkOut _ k).maschinenId = k.1 from rfl, ← hrk]
          rfl
        · rw [show (mkOut _ k).scrapIndex = k.2 from rfl, ← hrk]
          rfl

def c9row : OutRow :=
  { maschinenId := PyVal.str (r"A1"), scrapIndex := PyVal.int 1,
    sumLast60s := 12, avgLast60s := 4, messageCount := 3 }

/-- Counterexample to claim C9: the broadcast object's machine-identifier
field is named maschinenId; no field named machineId exists in the
object handed to the broadcast collaborator. -/
theorem claim_C9_cex :
    (broadcast_data c9row 1704067200000000).map Prod.fst =
      [(r"maschinenId"), (r"scrapIndex"), (r"sumLast60s"), (r"avgLast60s"), (r"timestamp")] ∧
    ((broadcast_data c9row 1704067200000000).map Prod.fst).contains (r"machineId") = false := by
  refine ⟨rfl, ?_⟩
  decide

/-- Claim C9 as amended: every aggregate row handed to the broadcast
collaborator is a JSON object with exactly the fields maschinenId (the
stored machine identifier), scrapIndex (the stored sensor index),
sumLast60s (the group sum), avgLast60s (the group mean rounded half to
even at two decimal places), and timestamp (the broadcast-time wall
clock formatted as an ISO-8601 UTC string with second precision); no
field is named machineId. -/
theorem claim_C9_amended (row : OutRow) (now : ℤ) :
    broadcast_data row now =
      [((r"maschinenId"), row.maschinenId),
       ((r"scrapIndex"), row.scrapIndex),
       ((r"sumLast60s"), PyVal.float row.sumLast60s),
       ((r"avgLast60s"), PyVal.float (round2 row.avgLast60s)),
       ((r"timestamp"), PyVal.str (formatTs now))] ∧
    ¬ (r"machineId") ∈ (broadcast_data row now).map Prod.fst := by
  refine ⟨rfl, ?_⟩
  intro h
  simp only [broadcast_data, List.map_cons, List.map_nil, List.mem_cons] at h
  rcases h with h | h | h | h | h | h
  all_goals exact absurd h (by decide)

def wr1 : PyRow :=
  { maschinenId := PyVal.str (r"A1"), scrapIndex := PyVal.int 1,
    value := 2, zeitstempel := 1704067200000000 }

def wr2 : PyRow :=
  { maschinenId := PyVal.str (r"A1"), scrapIndex := PyVal.int 1,
    value := 4, zeitstempel := 1704067201000000 }

def wr3 : PyRow :=
  { maschinenId := PyVal.str (r"B1"), scrapIndex := PyVal.int 2,
    value := 5, zeitstempel := 1704067200000000 }

def wrOld : PyRow :=
  { maschinenId := PyVal.str (r"A1"), scrapIndex := PyVal.int 1,
    value := 6, zeitstempel := 1703967200000000 }

def wnow : ℤ := 1704067202000000

theorem claim_C1_witness :
    (aggregate 60 [wr3, wr1, wr2, wrOld] wnow).2.countP
      (fun row => decide ((row.maschinenId, row.scrapIndex) = (PyVal.str (r"A1"), PyVal.int 1))) = 1 :=
  (claim_C1 60 wnow [wr3, wr1, wr2, wrOld]).2 (PyVal.str (r"A1"), PyVal.int 1)
    ⟨wr1, List.mem_cons_of_mem wr3 (List.mem_cons_self wr1 [wr2, wrOld]), rfl, by decide⟩

theorem claim_C2_witness :
    1 ≤ (mkOut ([wr3, wr1, wr2, wrOld].filter
        (fun r => decide (wnow - 60 * 1000000 ≤ r.zeitstempel)))
        (PyVal.str (r"A1"), PyVal.int 1)).messageCount ∧
    (mkOut ([wr3, wr1, wr2, wrOld].filter
        (fun r => decide (wnow - 60 * 1000000 ≤ r.zeitstempel)))
        (PyVal.str (r"A1"), PyVal.int 1)).avgLast60s =
      (mkOut ([wr3, wr1, wr2, wrOld].filter
        (fun r => decide (wnow - 60 * 1000000 ≤ r.zeitstempel)))
        (PyVal.str (r"A1"), PyVal.int 1)).sumLast60s /
        ((mkOut ([wr3, wr1, wr2, wrOld].filter
          (fun r => decide (wnow - 60 * 1000000 ≤ r.zeitstempel)))
          (PyVal.str (r"A1"), PyVal.int 1)).messageCount : ℚ) := by
  refine claim_C2 60 wnow [wr3, wr1, wr2, wrOld] _ ?_
  rw [aggregate_eq (by decide) (by decide)]
  exact mem_aggOut.mpr ⟨(PyVal.str (r"A1"), PyVal.int 1), by decide, rfl⟩

theorem claim_C6_amended_witness : aggregateRun 60 [wrOld] wnow = Except.ok ([], []) :=
  (claim_C6_amended 60 wnow).2.2 [wrOld] (by decide) (by decide)

theorem claim_C7_witness :
    (aggregate 60 [wr3, wr1] wnow).2.Pairwise (fun a b =>
      (∃ s1 s2, a.maschinenId = PyVal.str s1 ∧ b.maschinenId = PyVal.str s2 ∧ s1 < s2) ∨
      (a.maschinenId = b.maschinenId ∧
        ∃ n1 n2, a.scrapIndex = PyVal.int n1 ∧ b.scrapIndex = PyVal.int n2 ∧ n1 < n2)) :=
  claim_C7 60 wnow [wr3, wr1]
    (by
      intro r hr
      rcases List.mem_cons.mp hr with rfl | hr2
      · exact ⟨(r"B1"), rfl⟩
      · rcases List.mem_cons.mp hr2 with rfl | hr3
        · exact ⟨(r"A1"), rfl⟩
        · cases hr3)
    (by
      intro r hr
      rcases List.mem_cons.mp hr with rfl | hr2
      · exact ⟨2, rfl⟩
      · rcases List.mem_cons.mp hr2 with rfl | hr3
        · exact ⟨1, rfl⟩
        · cases hr3)

theorem claim_C4_amended_witness : add [] 5 c4payload = (Option.none, []) :=
  (claim_C4_amended [] 5 c4payload).1 (by decide)

def c5wpayload : Payload :=
  [((r"machineId"), PyVal.str (r"A1")), ((r"scrapIndex"), PyVal.int 1),
   ((r"value"), PyVal.float 1), ((r"timestamp"), PyVal.str (r"2024-01-01T00:00:30Z"))]

theorem claim_C5_amended_witness :
    add [] 999 c5wpayload =
      (Option.none, [{ maschinenId := PyVal.str (r"A1"), scrapIndex := PyVal.int 1,
                       value := 1, zeitstempel := 1704067230000000 }]) := by
  have h := ((claim_C5_amended [] 999 c5wpayload 1 (by decide) (by decide) (by decide)
      rfl).2.1 (r"2024-01-01T00:00:30Z") rfl).1 1704067230000000 (Option.some 0) (by decide)
  exact h

def c8payload : Payload :=
  [((r"machineId"), PyVal.str (r"A1")), ((r"scrapIndex"), PyVal.int 1),
   ((r"value"), PyVal.str (r"abc"))]

theorem claim_C8_witness :
    (add [] 999 c8payload).1 = Option.some AddErr.invalidValue :=
  ((claim_C8 [] 999 c8payload).2 (by decide) (by decide) (by decide) 999 rfl).mpr (by decide)

def c10payload : Payload :=
  [((r"machineId"), PyVal.str (r"A1")), ((r"scrapIndex"), PyVal.str (r"7")),
   ((r"value"), PyVal.float 2)]

theorem claim_C10_witness :
    add [] 999 c10payload =
      (Option.none, [{ maschinenId := PyVal.str (r"A1"), scrapIndex := PyVal.str (r"7"),
                       value := 2, zeitstempel := 999 }]) := by
  have h := (claim_C10 [] 999 c10payload (r"7") 2 (by decide) rfl rfl (by decide)).1
  exact h

theorem claim_C9_amended_witness :
    ¬ (r"machineId") ∈ (broadcast_data c9row 0).map Prod.fst :=
  (claim_C9_amended c9row 0).2
